import Mathlib

/-!
Verification of the proof-verification / nullifier-tracking endpoint of the
developer-portal repository.

The embedding below follows `src/unnamed/part_000` (the Next.js API handler
`handleVerify` together with its two GraphQL mutations `insertNullifierQuery`
and `updateNullifierQuery`) and the Hasura permission metadata
`src/hasura/metadata/databases/default/tables/public_nullifier.yaml`.

Helpers imported by the handler from `src/backend/*` and `src/lib/types`
(`validateRequestSchema`, `canVerifyForAction`, `verifyProof`,
`fetchActionForProof`, `CredentialType`) are not part of the repository
snapshot; they are modelled from the spec where needed, and the results of the
two external calls (`fetchActionForProof`, `verifyProof`) are passed to the
embedded handler as oracle inputs.

Machine integers: `uses`, `max_verifications` and HTTP status codes are
JavaScript numbers used only as small counters in the source, so they are
embedded as `Nat`.
-/

/-- One stored row of the `public.nullifier` table, with the columns named in
the Hasura metadata file. -/
structure DBRow where
  id : String
  action_id : String
  nullifier_hash : String
  credential_type : String
  created_at : String
  uses : Nat
deriving Repr, DecidableEq

/-- The incoming HTTP request: method, the body attributes the yup schema
reads, and the `app_id` query parameter.  Absent attributes are `none`. -/
structure VerifyRequest where
  method : Option String
  action : Option String
  signal : Option String
  proof : Option String
  nullifier_hash : Option String
  merkle_root : Option String
  credential_type : Option String
  app_id : Option String
deriving Repr, DecidableEq

/-- The parsed request body produced by a successful schema validation. -/
structure ParsedParams where
  action : String
  signal : String
  proof : String
  nullifier_hash : String
  merkle_root : String
  credential_type : String
deriving Repr, DecidableEq

/-- The error object shape used by `fetchActionForProof` and `verifyProof`
results; `attr` embeds the TypeScript field named `attribute` (a Lean
keyword), every field possibly absent. -/
structure ErrorInfo where
  statusCode : Option Nat
  code : Option String
  message : Option String
  attr : Option String
deriving Repr, DecidableEq

/-- The nullifier record returned by `fetchActionForProof`: the fields the
handler reads (`nullifier_hash`, `uses`, `created_at`). -/
structure NullifierInfo where
  nullifier_hash : String
  uses : Nat
  created_at : String
deriving Repr, DecidableEq

/-- The action record returned by `fetchActionForProof`: the fields the
handler reads. -/
structure ActionInfo where
  id : String
  action : Option String
  status : String
  max_verifications : Nat
  external_nullifier : Option String
deriving Repr, DecidableEq

/-- The app record returned by `fetchActionForProof`. -/
structure AppInfo where
  is_staging : Bool
  action : ActionInfo
  nullifier : Option NullifierInfo
deriving Repr, DecidableEq

/-- Result of the external `fetchActionForProof` call (oracle input). -/
structure FetchResult where
  error : Option ErrorInfo
  app : Option AppInfo
deriving Repr, DecidableEq

/-- Result of the external `verifyProof` call (oracle input): `{ error, success }`. -/
structure VerifyResult where
  error : Option ErrorInfo
  success : Bool
deriving Repr, DecidableEq

/-- JavaScript `x || d` for an optional number: absent or `0` falls back to `d`. -/
def orDefaultNat (o : Option Nat) (d : Nat) : Nat :=
  match o with
  | some n => if n = 0 then d else n
  | none => d

/-- JavaScript `x || d` for an optional string: absent or `""` falls back to `d`. -/
def orDefaultStr (o : Option String) (d : String) : String :=
  match o with
  | some s => if s = "" then d else s
  | none => d

/-- JavaScript `x || null` for an optional string: `""` collapses to `null`. -/
def orNull (o : Option String) : Option String :=
  match o with
  | some s => if s = "" then none else some s
  | none => none

/-- JavaScript falsiness of an optional string (`!x`): absent or empty. -/
def falsyStr : Option String → Bool
  | none => true
  | some s => s == ""

/-- Modelled from the spec: `validateRequestSchema` (src/backend/utils, absent
from the snapshot) applies the yup `schema` declared at the top of the handler
file.  `action` must be defined, `proof`, `nullifier_hash`, `merkle_root` and
`credential_type` are required, `credential_type` must be one of the allowed
`CredentialType` values (`src/lib/types` is also absent, so the allowed values
are the parameter `credTypes`), and `signal` defaults to `""`. -/
def validateRequestSchema (credTypes : List String) (req : VerifyRequest) :
    Option ParsedParams :=
  match req.action, req.proof, req.nullifier_hash, req.merkle_root,
      req.credential_type with
  | some a, some p, some nh, some mr, some ct =>
      if ct ∈ credTypes then
        some ⟨a, req.signal.getD "", p, nh, mr, ct⟩
      else none
  | _, _, _, _, _ => none

/-- Modelled from the spec: `canVerifyForAction` (src/backend/utils, absent
from the snapshot).  Per the spec a nullifier is recorded "so the same person
cannot verify twice for the same action beyond a configured limit": a person
with no nullifier yet may verify, and an existing nullifier may verify again
while its `uses` count is still below the configured limit. -/
def canVerifyForAction (nullifier : Option NullifierInfo)
    (max_verifications : Nat) : Bool :=
  match nullifier with
  | none => true
  | some n => n.uses < max_verifications

/-- The response the handler sends, one constructor per exit point of
`handleVerify`.  `success` carries the JSON fields `uses`, `action`,
`created_at`, `max_uses`, `nullifier_hash` (its `success: true` field is the
constructor itself). -/
inductive VerifyResponse where
  | notAllowed (method : Option String)
  | schemaError
  | requiredAttribute (attr : String)
  | errorResp (statusCode : Nat) (code : String) (message : String)
      (attr : Option String)
  | validationErr (code : String) (detail : String)
  | success (uses : Nat) (action : Option String) (created_at : String)
      (max_uses : Nat) (nullifier_hash : String)
deriving Repr, DecidableEq

/-- Whether a response is the 200 success response. -/
def VerifyResponse.isSuccess : VerifyResponse → Bool
  | .success _ _ _ _ _ => true
  | _ => false

/-- The `updateNullifierQuery` GraphQL mutation: increment `uses` by 1 on the
rows whose `nullifier_hash` equals the given hash and whose `uses` equals the
given value; return the new table and `affected_rows`. -/
def updateNullifier (db : List DBRow) (nullifier_hash : String) (uses : Nat) :
    List DBRow × Nat :=
  (db.map fun r =>
     if r.nullifier_hash = nullifier_hash ∧ r.uses = uses then
       { r with uses := r.uses + 1 }
     else r,
   db.countP fun r => r.nullifier_hash == nullifier_hash && r.uses == uses)

/-- The `insertNullifierQuery` GraphQL mutation.  Modelled from the spec: the
nullifier is "one-time-use (or bounded-use)", and the handler maps a
`constraint-violation` GraphQL error to `already_verified`, so the table has a
uniqueness constraint on `nullifier_hash`; inserting an already present hash
fails (`none`), otherwise the new row (with `uses` starting at 1) is appended
and returned.  `newId` and `created_at` stand for the database-generated
column values. -/
def insertNullifier (db : List DBRow) (newId action_id nullifier_hash
    credential_type created_at : String) : List DBRow × Option DBRow :=
  if db.any (fun r => r.nullifier_hash == nullifier_hash) then (db, none)
  else
    let row : DBRow :=
      ⟨newId, action_id, nullifier_hash, credential_type, created_at, 1⟩
    (db ++ [row], some row)

/-- The API handler `handleVerify` of `src/unnamed/part_000`, embedded as a
function from the request, the oracle results of the two external calls, the
database-generated insert values, and the current nullifier table, to the
response and the new table. -/
def handleVerify (credTypes : List String) (req : VerifyRequest)
    (fetch : FetchResult) (verify : VerifyResult)
    (newId createdAt : String) (db : List DBRow) :
    VerifyResponse × List DBRow :=
  if req.method ≠ some "POST" then
    (.notAllowed req.method, db)
  else
    match validateRequestSchema credTypes req with
    | none => (.schemaError, db)
    | some parsedParams =>
      if falsyStr req.app_id then
        (.requiredAttribute "app_id", db)
      else
        match fetch.app, fetch.error with
        | none, e =>
            (.errorResp (orDefaultNat (e.bind (·.statusCode)) 400)
              (orDefaultStr (e.bind (·.code)) "unknown_error")
              (orDefaultStr (e.bind (·.message))
                "There was an error verifying this proof.")
              (orNull (e.bind (·.attr))), db)
        | some _, some e =>
            (.errorResp (orDefaultNat e.statusCode 400)
              (orDefaultStr e.code "unknown_error")
              (orDefaultStr e.message
                "There was an error verifying this proof.")
              (orNull e.attr), db)
        | some app, none =>
          if app.action.status = "inactive" then
            (.errorResp 400 "action_inactive" "This action is inactive."
              (some "status"), db)
          else if ¬ canVerifyForAction app.nullifier
              app.action.max_verifications then
            (.validationErr "already_verified"
              (if app.action.max_verifications = 1 then
                 "This person has already verified for this action."
               else
                 "This person has already verified for this action the maximum number of times ("
                   ++ toString app.action.max_verifications ++ ")."), db)
          else if falsyStr app.action.external_nullifier then
            (.errorResp 400 "verification_error"
              "This action does not have a valid external nullifier set."
              none, db)
          else if verify.error.isSome ∨ verify.success = false then
            (.errorResp (orDefaultNat (verify.error.bind (·.statusCode)) 400)
              (orDefaultStr (verify.error.bind (·.code)) "unknown_error")
              (orDefaultStr (verify.error.bind (·.message))
                "There was an error verifying this proof.")
              (orNull (verify.error.bind (·.attr))), db)
          else
            match app.nullifier with
            | some n =>
                let upd := updateNullifier db n.nullifier_hash n.uses
                if upd.2 = 0 then
                  (.validationErr "already_verified"
                    "This person has already verified for this action.",
                   upd.1)
                else
                  (.success (n.uses + 1) app.action.action n.created_at
                    app.action.max_verifications n.nullifier_hash, upd.1)
            | none =>
                let ins := insertNullifier db newId app.action.id
                  parsedParams.nullifier_hash parsedParams.credential_type
                  createdAt
                match ins.2 with
                | none =>
                    (.validationErr "already_verified"
                      "This person has already verified for this action.",
                     ins.1)
                | some row =>
                    if row.nullifier_hash ≠ parsedParams.nullifier_hash then
                      (.errorResp 400 "verification_error"
                        "There was an error inserting the nullifier. Please try again."
                        none, ins.1)
                    else
                      (.success 1 app.action.action row.created_at
                        app.action.max_verifications row.nullifier_hash,
                       ins.1)

/-- One complete call of `handleVerify`, packaged for reasoning about
sequences of verification attempts: the allowed credential types, the
request, the two oracle results, and the database-generated insert values. -/
structure VerifyStep where
  credTypes : List String
  req : VerifyRequest
  fetch : FetchResult
  verify : VerifyResult
  newId : String
  createdAt : String

/-- The nullifier-table state after one `handleVerify` call. -/
def runVerify (db : List DBRow) (s : VerifyStep) : List DBRow :=
  (handleVerify s.credTypes s.req s.fetch s.verify s.newId s.createdAt db).2

/-- The nullifier-table state after a sequence of `handleVerify` calls. -/
def runVerifies (steps : List VerifyStep) (db : List DBRow) : List DBRow :=
  steps.foldl runVerify db

/-- The per-action configuration invariant for the nullifier table:
`actionOf` names the action each nullifier hash belongs to, `cfg` gives each
action its configured `max_verifications` limit, and every stored row belongs
to its hash's action and has at most `cfg` uses. -/
def UsesInv (cfg : String → Nat) (actionOf : String → String)
    (db : List DBRow) : Prop :=
  ∀ r ∈ db, r.action_id = actionOf r.nullifier_hash ∧
    r.uses ≤ cfg r.action_id

/-- Consistency of one step's `fetchActionForProof` oracle result with the
configuration: the returned action carries the configured positive limit of
its own action id, the returned nullifier (if any) belongs to that action,
and the request's nullifier hash belongs to that action. -/
def StepConsistent (cfg : String → Nat) (actionOf : String → String)
    (s : VerifyStep) : Prop :=
  ∀ a, s.fetch.app = some a →
    a.action.max_verifications = cfg a.action.id ∧
    0 < cfg a.action.id ∧
    (∀ n, a.nullifier = some n →
      actionOf n.nullifier_hash = a.action.id) ∧
    (∀ p, validateRequestSchema s.credTypes s.req = some p →
      actionOf p.nullifier_hash = a.action.id)

/-- A raw database operation, as issued by `handleVerify` against the managed
store: the conditional increment of `updateNullifierQuery` (carrying the
`uses` value the issuing request observed earlier) or the insert of
`insertNullifierQuery`. -/
inductive NullifierOp where
  | update (nullifier_hash : String) (observed : Nat)
  | insert (newId action_id nullifier_hash credential_type created_at : String)
deriving Repr, DecidableEq

/-- The nullifier hash an operation targets. -/
def NullifierOp.hash : NullifierOp → String
  | .update h _ => h
  | .insert _ _ h _ _ => h

/-- Apply one operation atomically; the boolean is whether the issuing
verification attempt succeeds (`affected_rows` positive for an update, no
constraint violation for an insert). -/
def applyOp (db : List DBRow) : NullifierOp → List DBRow × Bool
  | .update h u =>
      let r := updateNullifier db h u
      (r.1, decide (0 < r.2))
  | .insert i a h c t =>
      let r := insertNullifier db i a h c t
      (r.1, r.2.isSome)

/-- Run a schedule of operations (an arbitrary interleaving of the mutation
steps of concurrent requests). -/
def runOps (ops : List NullifierOp) (db : List DBRow) : List DBRow :=
  match ops with
  | [] => db
  | o :: rest => runOps rest (applyOp db o).1

/-- Run a schedule and count the successful operations targeting hash `h`. -/
def runCount (h : String) (ops : List NullifierOp) (db : List DBRow) :
    List DBRow × Nat :=
  match ops with
  | [] => (db, 0)
  | o :: rest =>
      let r := applyOp db o
      let rc := runCount h rest r.1
      (rc.1, (if o.hash = h ∧ r.2 = true then 1 else 0) + rc.2)

/-- The `uses` count stored for hash `h`, `none` when no row has that hash. -/
def rowUses (db : List DBRow) (h : String) : Option Nat :=
  (db.find? fun r => r.nullifier_hash == h).map (·.uses)

/-- The stored `uses` count for hash `h`, read as a number (0 when absent). -/
def usesVal (db : List DBRow) (h : String) : Nat :=
  (rowUses db h).getD 0

/-- No two rows share a nullifier hash (the uniqueness constraint). -/
def HashUnique (db : List DBRow) : Prop :=
  db.Pairwise fun r s => r.nullifier_hash ≠ s.nullifier_hash

/-- A schedule is guarded for hash `h` under limit `max` when every update of
`h` it contains carries an observed `uses` value below `max` — exactly what
`handleVerify` enforces by checking `canVerifyForAction` before issuing
`updateNullifierQuery`. -/
def Guarded (max : Nat) (h : String) (ops : List NullifierOp) : Prop :=
  ∀ u, NullifierOp.update h u ∈ ops → u < max

/-- The columns the `service` role may write through an update, from
`update_permissions` in `public_nullifier.yaml`. -/
def nullifierUpdateColumns : List String := ["uses"]

/-- A requested column assignment for an update of a nullifier row: `none`
means the column is not assigned. -/
structure ColumnAssignment where
  id : Option String
  action_id : Option String
  nullifier_hash : Option String
  credential_type : Option String
  created_at : Option String
  uses : Option Nat
deriving Repr, DecidableEq

/-- Modelled from the spec: the managed store applies an update through a
role "with declarative permission rules" — an assignment to a column is
applied only when the role's permitted column list contains that column. -/
def applyPermittedUpdate (allowed : List String) (u : ColumnAssignment)
    (r : DBRow) : DBRow :=
  { id := if "id" ∈ allowed then u.id.getD r.id else r.id
    action_id :=
      if "action_id" ∈ allowed then u.action_id.getD r.action_id
      else r.action_id
    nullifier_hash :=
      if "nullifier_hash" ∈ allowed then u.nullifier_hash.getD r.nullifier_hash
      else r.nullifier_hash
    credential_type :=
      if "credential_type" ∈ allowed then
        u.credential_type.getD r.credential_type
      else r.credential_type
    created_at :=
      if "created_at" ∈ allowed then u.created_at.getD r.created_at
      else r.created_at
    uses := if "uses" ∈ allowed then u.uses.getD r.uses else r.uses }

/-- The per-row bound the spec promises: every stored nullifier row has at
most its action's configured limit of uses. -/
def UsesBound (cfg : String → Nat) (db : List DBRow) : Prop :=
  ∀ r ∈ db, r.uses ≤ cfg r.action_id

/-- Example request used by the concrete witnesses. -/
def exReq : VerifyRequest :=
  ⟨some "POST", some "sign-in", some "", some "pf", some "0xabc",
   some "0xroot", some "orb", some "app_1"⟩

/-- Example action configured with a limit of 2 verifications. -/
def exAction : ActionInfo := ⟨"act_1", some "sign-in", "active", 2, some "ext"⟩

/-- Example fetch result: action found, no nullifier stored yet. -/
def exFetchNew : FetchResult := ⟨none, some ⟨false, exAction, none⟩⟩

/-- Example fetch result: the nullifier was read with one use. -/
def exFetchUsed : FetchResult :=
  ⟨none, some ⟨false, exAction, some ⟨"0xabc", 1, "t0"⟩⟩⟩

/-- Example stored row for hash 0xabc with one use. -/
def exRow : DBRow := ⟨"nil_1", "act_1", "0xabc", "orb", "t1", 1⟩

/-- Example stored row for hash 0xabc with two uses (a concurrent request
already incremented it past the value `exFetchUsed` observed). -/
def exRow2 : DBRow := ⟨"nil_1", "act_1", "0xabc", "orb", "t1", 2⟩

/-- Example verification step: fresh nullifier, successful external proof. -/
def exStep : VerifyStep :=
  ⟨["orb"], exReq, exFetchNew, ⟨none, true⟩, "nil_1", "t1"⟩

/-- Example failed result of the external verifier. -/
def exVerifyErr : VerifyResult :=
  ⟨some ⟨some 401, some "invalid_proof", some "bad proof", none⟩, false⟩

/-- Example schedule: one insert and two updates racing on hash 0xabc. -/
def exOps : List NullifierOp :=
  [.insert "nil_1" "act_1" "0xabc" "orb" "t1",
   .update "0xabc" 1, .update "0xabc" 1]

theorem rowUses_cons (r : DBRow) (db : List DBRow) (h : String) :
    rowUses (r :: db) h =
      if r.nullifier_hash = h then some r.uses else rowUses db h := by
  by_cases hr : r.nullifier_hash = h
  · simp [rowUses, List.find?_cons_of_pos, hr]
  · simp [rowUses, List.find?_cons_of_neg, hr]

theorem updateNullifier_fst_cons (r : DBRow) (db : List DBRow) (h' : String)
    (u : Nat) :
    (updateNullifier (r :: db) h' u).1 =
      (if r.nullifier_hash = h' ∧ r.uses = u then { r with uses := r.uses + 1 }
       else r) :: (updateNullifier db h' u).1 := by
  simp [updateNullifier]

theorem rowUses_updateNullifier (db : List DBRow) (h' : String) (u : Nat)
    (h : String) :
    rowUses (updateNullifier db h' u).1 h =
      (rowUses db h).map fun w => if h' = h ∧ w = u then w + 1 else w := by
  induction db with
  | nil => simp [rowUses, updateNullifier]
  | cons r db ih =>
    rw [updateNullifier_fst_cons, rowUses_cons, rowUses_cons]
    by_cases hr : r.nullifier_hash = h
    · by_cases hc : r.nullifier_hash = h' ∧ r.uses = u
      · have hh : h' = h := hc.1 ▸ hr
        simp [hc, hr, hh, hc.2]
      · have : (if r.nullifier_hash = h' ∧ r.uses = u then
            { r with uses := r.uses + 1 } else r) = r := by simp [hc]
        rw [this]
        simp only [hr, if_pos, Option.map_some]
        by_cases hh : h' = h
        · have : ¬ (r.uses = u) := by
            intro hu
            exact hc ⟨hh ▸ hr, hu⟩
          simp [hh, this]
        · simp [hh]
    · have hfr : (if r.nullifier_hash = h' ∧ r.uses = u then
          { r with uses := r.uses + 1 } else r).nullifier_hash =
            r.nullifier_hash := by
        by_cases hc : r.nullifier_hash = h' ∧ r.uses = u <;> simp [hc]
      have hr2 : ¬ ((if r.nullifier_hash = h' ∧ r.uses = u then
          { r with uses := r.uses + 1 } else r).nullifier_hash = h) := by
        rw [hfr]; exact hr
      rw [if_neg hr2, if_neg hr]
      exact ih

theorem rowUses_append_single (db : List DBRow) (r : DBRow) (h : String) :
    rowUses (db ++ [r]) h =
      match rowUses db h with
      | some w => some w
      | none => if r.nullifier_hash = h then some r.uses else none := by
  induction db with
  | nil => simp [rowUses_cons, rowUses]
  | cons s db ih =>
    rw [List.cons_append, rowUses_cons, rowUses_cons]
    by_cases hs : s.nullifier_hash = h
    · simp [hs]
    · simp only [hs, if_neg, ite_false]
      exact ih

theorem updateNullifier_affected_pos (db : List DBRow) (h : String) (u : Nat) :
    0 < (updateNullifier db h u).2 ↔
      ∃ r ∈ db, r.nullifier_hash = h ∧ r.uses = u := by
  simp [updateNullifier, List.countP_pos_iff]

theorem insertNullifier_any_eq (db : List DBRow)
    (i a h c t : String) :
    (insertNullifier db i a h c t).2.isSome = true ↔ rowUses db h = none := by
  rcases ho : db.find? (fun s => s.nullifier_hash == h) with _ | r
  · have hany : (db.any fun s => s.nullifier_hash == h) = false := by
      rw [List.find?_eq_none] at ho
      rw [Bool.eq_false_iff]
      intro hany
      rw [List.any_eq_true] at hany
      obtain ⟨r, hr, hh⟩ := hany
      exact absurd hh (by simpa using ho r hr)
    simp [insertNullifier, hany, rowUses, ho]
  · have hany : (db.any fun s => s.nullifier_hash == h) = true := by
      rw [List.any_eq_true]
      have hp : (r.nullifier_hash == h) = true := by
        have hq := List.find?_some ho
        simpa using hq
      exact ⟨r, List.mem_of_find?_eq_some ho, hp⟩
    simp [insertNullifier, hany, rowUses, ho]

theorem updateRow_hash (r : DBRow) (h : String) (u : Nat) :
    (if r.nullifier_hash = h ∧ r.uses = u then { r with uses := r.uses + 1 }
     else r).nullifier_hash = r.nullifier_hash := by
  by_cases hc : r.nullifier_hash = h ∧ r.uses = u <;> simp [hc]

theorem hashUnique_updateNullifier (db : List DBRow) (h : String) (u : Nat)
    (huniq : HashUnique db) : HashUnique (updateNullifier db h u).1 := by
  unfold HashUnique at *
  simp only [updateNullifier]
  rw [List.pairwise_map]
  refine huniq.imp ?_
  intro a b hab
  rw [updateRow_hash, updateRow_hash]
  exact hab

theorem insertNullifier_fst (db : List DBRow) (i a h c t : String) :
    (insertNullifier db i a h c t).1 =
      if (db.any fun r => r.nullifier_hash == h) then db
      else db ++ [⟨i, a, h, c, t, 1⟩] := by
  by_cases hany : (db.any fun r => r.nullifier_hash == h) = true <;>
    simp [insertNullifier, hany]

theorem hashUnique_insertNullifier (db : List DBRow) (i a h c t : String)
    (huniq : HashUnique db) : HashUnique (insertNullifier db i a h c t).1 := by
  by_cases hany : (db.any fun r => r.nullifier_hash == h) = true
  · simpa [insertNullifier, hany] using huniq
  · unfold HashUnique at *
    rw [insertNullifier_fst, if_neg hany]
    rw [List.pairwise_append]
    refine ⟨huniq, List.pairwise_singleton _ _, ?_⟩
    intro x hx y hy
    have hy2 : y = ⟨i, a, h, c, t, 1⟩ := by simpa using hy
    subst hy2
    intro hxh
    exact hany (List.any_eq_true.mpr ⟨x, hx, by simpa using hxh⟩)

theorem find?_eq_of_mem_hashUnique (db : List DBRow) (r : DBRow) (h : String)
    (huniq : HashUnique db) (hr : r ∈ db) (hh : r.nullifier_hash = h) :
    db.find? (fun s => s.nullifier_hash == h) = some r := by
  induction db with
  | nil => cases hr
  | cons s db ih =>
    rcases List.mem_cons.mp hr with hrs | hrd
    · subst hrs
      exact List.find?_cons_of_pos _ (by simpa using hh)
    · have hne := (List.pairwise_cons.mp huniq).1 r hrd
      have hsh : ¬ (s.nullifier_hash = h) := by
        intro hsh
        exact hne (by rw [hsh, hh])
      rw [List.find?_cons_of_neg _ (by simpa using hsh)]
      exact ih (List.pairwise_cons.mp huniq).2 hrd

theorem applyOp_update_success (db : List DBRow) (h : String) (u : Nat)
    (huniq : HashUnique db) :
    (applyOp db (.update h u)).2 = true ↔ rowUses db h = some u := by
  have happ : (applyOp db (.update h u)).2 =
      decide (0 < (updateNullifier db h u).2) := rfl
  rw [happ, decide_eq_true_eq, updateNullifier_affected_pos]
  constructor
  · rintro ⟨r, hr, hh, hu⟩
    rw [rowUses, find?_eq_of_mem_hashUnique db r h huniq hr hh]
    simp [hu]
  · intro hro
    rw [rowUses] at hro
    rcases ho : db.find? (fun s => s.nullifier_hash == h) with _ | r
    · rw [ho] at hro; simp at hro
    · rw [ho] at hro
      simp only [Option.map_some', Option.some.injEq] at hro
      refine ⟨r, List.mem_of_find?_eq_some ho, ?_, hro⟩
      have hp := List.find?_some ho
      simpa using hp

theorem applyOp_insert_success (db : List DBRow) (i a h c t : String) :
    (applyOp db (.insert i a h c t)).2 = true ↔ rowUses db h = none := by
  exact insertNullifier_any_eq db i a h c t


theorem hashUnique_applyOp (db : List DBRow) (o : NullifierOp)
    (huniq : HashUnique db) : HashUnique (applyOp db o).1 := by
  cases o with
  | update h u => exact hashUnique_updateNullifier db h u huniq
  | insert i a h c t => exact hashUnique_insertNullifier db i a h c t huniq

theorem usesVal_applyOp (db : List DBRow) (o : NullifierOp) (h : String)
    (huniq : HashUnique db) :
    usesVal (applyOp db o).1 h =
      usesVal db h +
        (if o.hash = h ∧ (applyOp db o).2 = true then 1 else 0) := by
  cases o with
  | update h' u =>
    have hfst : (applyOp db (.update h' u)).1 = (updateNullifier db h' u).1 :=
      rfl
    rw [hfst, usesVal, usesVal, rowUses_updateNullifier]
    simp only [NullifierOp.hash]
    by_cases hsucc : (applyOp db (.update h' u)).2 = true
    · have hro := (applyOp_update_success db h' u huniq).mp hsucc
      by_cases hhh : h' = h
      · subst hhh
        rw [hro]
        simp [hsucc]
      · rcases ho : rowUses db h with _ | w
        · simp [ho, hhh]
        · simp [ho, hhh]
    · have hnro : ¬ (rowUses db h' = some u) := fun hx =>
        hsucc ((applyOp_update_success db h' u huniq).mpr hx)
      rcases ho : rowUses db h with _ | w
      · simp [ho, hsucc]
      · by_cases hhh : h' = h
        · subst hhh
          have hwu : ¬ (w = u) := by
            intro hwu
            exact hnro (by rw [ho, hwu])
          simp [ho, hsucc, hwu]
        · simp [ho, hsucc, hhh]
  | insert i a h' c t =>
    have hfst : (applyOp db (.insert i a h' c t)).1 =
        (insertNullifier db i a h' c t).1 := rfl
    have h2 : (applyOp db (.insert i a h' c t)).2 =
        (insertNullifier db i a h' c t).2.isSome := rfl
    rw [hfst, insertNullifier_fst]
    simp only [NullifierOp.hash]
    by_cases hany : (db.any fun r => r.nullifier_hash == h') = true
    · have hfail : (applyOp db (.insert i a h' c t)).2 = false := by
        rw [h2]
        simp [insertNullifier, hany]
      rw [if_pos hany]
      simp [hfail]
    · have hsucc : (applyOp db (.insert i a h' c t)).2 = true := by
        rw [h2]
        simp [insertNullifier, hany]
      have hnone : rowUses db h' = none :=
        (applyOp_insert_success db i a h' c t).mp hsucc
      rw [if_neg hany, usesVal, usesVal, rowUses_append_single]
      by_cases hhh : h' = h
      · subst hhh
        rw [hnone]
        simp [hsucc]
      · rcases ho : rowUses db h with _ | w
        · simp [hhh, hsucc]
        · simp [hhh]

theorem runCount_invariant (max : Nat) (h : String) :
    ∀ (ops : List NullifierOp) (db : List DBRow),
      Guarded max h ops → 0 < max → HashUnique db → usesVal db h ≤ max →
      HashUnique (runCount h ops db).1 ∧
      (runCount h ops db).2 + usesVal db h = usesVal (runCount h ops db).1 h ∧
      usesVal (runCount h ops db).1 h ≤ max := by
  intro ops
  induction ops with
  | nil =>
    intro db hg hm hu hb
    exact ⟨hu, by simp [runCount], by simpa [runCount] using hb⟩
  | cons o rest ih =>
    intro db hg hm hu hb
    have huniq1 : HashUnique (applyOp db o).1 := hashUnique_applyOp db o hu
    have hacc : usesVal (applyOp db o).1 h =
        usesVal db h +
          (if o.hash = h ∧ (applyOp db o).2 = true then 1 else 0) :=
      usesVal_applyOp db o h hu
    have hg1 : Guarded max h rest := by
      intro u hu2
      exact hg u (List.mem_cons_of_mem o hu2)
    have hb1 : usesVal (applyOp db o).1 h ≤ max := by
      rw [hacc]
      by_cases hδ : o.hash = h ∧ (applyOp db o).2 = true
      · cases o with
        | update h' u =>
          have hh : h' = h := hδ.1
          subst hh
          have hro := (applyOp_update_success db h' u hu).mp hδ.2
          have hval : usesVal db h' = u := by rw [usesVal, hro]; rfl
          have hlt : u < max := hg u (List.mem_cons_self _ _)
          rw [hval]
          simpa [hδ] using hlt
        | insert i a h' c t =>
          have hh : h' = h := hδ.1
          subst hh
          have hnone : rowUses db h' = none :=
            (applyOp_insert_success db i a h' c t).mp hδ.2
          have hval : usesVal db h' = 0 := by rw [usesVal, hnone]; rfl
          rw [hval]
          simpa [hδ] using hm
      · simp [hδ]
        exact le_trans (by simp) hb
    obtain ⟨ihu, ihacc, ihb⟩ := ih (applyOp db o).1 hg1 hm huniq1 hb1
    have hrc1 : (runCount h (o :: rest) db).1 =
        (runCount h rest (applyOp db o).1).1 := by
      simp [runCount]
    have hrc2 : (runCount h (o :: rest) db).2 =
        (if o.hash = h ∧ (applyOp db o).2 = true then 1 else 0) +
          (runCount h rest (applyOp db o).1).2 := by
      simp [runCount]
    refine ⟨by rw [hrc1]; exact ihu, ?_, by rw [hrc1]; exact ihb⟩
    rw [hrc1, hrc2]
    omega

theorem rowUses_le_applyOp (db : List DBRow) (o : NullifierOp) (h : String)
    (w : Nat) (hro : rowUses db h = some w) :
    ∃ w2, w ≤ w2 ∧ rowUses (applyOp db o).1 h = some w2 := by
  cases o with
  | update h' u =>
    have hfst : (applyOp db (.update h' u)).1 = (updateNullifier db h' u).1 :=
      rfl
    rw [hfst, rowUses_updateNullifier, hro]
    by_cases hc : h' = h ∧ w = u
    · exact ⟨w + 1, by omega, by simp [hc]⟩
    · exact ⟨w, le_refl w, by simp [hc]⟩
  | insert i a h' c t =>
    have hfst : (applyOp db (.insert i a h' c t)).1 =
        (insertNullifier db i a h' c t).1 := rfl
    rw [hfst, insertNullifier_fst]
    by_cases hany : (db.any fun r => r.nullifier_hash == h') = true
    · rw [if_pos hany]
      exact ⟨w, le_refl w, hro⟩
    · rw [if_neg hany, rowUses_append_single, hro]
      exact ⟨w, le_refl w, rfl⟩

theorem hashUnique_runOps :
    ∀ (ops : List NullifierOp) (db : List DBRow),
      HashUnique db → HashUnique (runOps ops db) := by
  intro ops
  induction ops with
  | nil => intro db hu; simpa [runOps] using hu
  | cons o rest ih =>
    intro db hu
    have h1 : runOps (o :: rest) db = runOps rest (applyOp db o).1 := by
      simp [runOps]
    rw [h1]
    exact ih _ (hashUnique_applyOp db o hu)

theorem rowUses_le_runOps (h : String) :
    ∀ (ops : List NullifierOp) (db : List DBRow) (w : Nat),
      rowUses db h = some w →
      ∃ w2, w ≤ w2 ∧ rowUses (runOps ops db) h = some w2 := by
  intro ops
  induction ops with
  | nil =>
    intro db w hro
    exact ⟨w, le_refl w, by simpa [runOps] using hro⟩
  | cons o rest ih =>
    intro db w hro
    obtain ⟨w1, hw1, hro1⟩ := rowUses_le_applyOp db o h w hro
    obtain ⟨w2, hw2, hro2⟩ := ih (applyOp db o).1 w1 hro1
    exact ⟨w2, le_trans hw1 hw2, by simpa [runOps] using hro2⟩

theorem applyOp_update_success_rowUses (db : List DBRow) (h : String) (u : Nat)
    (huniq : HashUnique db) (hs : (applyOp db (.update h u)).2 = true) :
    rowUses (applyOp db (.update h u)).1 h = some (u + 1) := by
  have hro := (applyOp_update_success db h u huniq).mp hs
  have hfst : (applyOp db (.update h u)).1 = (updateNullifier db h u).1 := rfl
  rw [hfst, rowUses_updateNullifier, hro]
  simp

theorem update_same_observed_second_fails (db : List DBRow) (h : String)
    (u : Nat) (mid : List NullifierOp) (huniq : HashUnique db)
    (hs : (applyOp db (.update h u)).2 = true) :
    (applyOp (runOps mid (applyOp db (.update h u)).1) (.update h u)).2 =
      false := by
  have h1 := applyOp_update_success_rowUses db h u huniq hs
  have huniq1 : HashUnique (applyOp db (.update h u)).1 :=
    hashUnique_applyOp _ _ huniq
  obtain ⟨w2, hw2, hro2⟩ := rowUses_le_runOps h mid _ (u + 1) h1
  have huniq2 : HashUnique (runOps mid (applyOp db (.update h u)).1) :=
    hashUnique_runOps mid _ huniq1
  rw [Bool.eq_false_iff]
  intro hs2
  have h3 := (applyOp_update_success _ h u huniq2).mp hs2
  rw [hro2] at h3
  simp only [Option.some.injEq] at h3
  omega

theorem insertNullifier_none_fst (db : List DBRow) (i a h c t : String)
    (hnone : (insertNullifier db i a h c t).2 = none) :
    (insertNullifier db i a h c t).1 = db := by
  by_cases hany : (db.any fun r => r.nullifier_hash == h) = true
  · simp [insertNullifier, hany]
  · simp [insertNullifier, hany] at hnone

theorem insertNullifier_some (db : List DBRow) (i a h c t : String)
    (row : DBRow) (hsome : (insertNullifier db i a h c t).2 = some row) :
    row = ⟨i, a, h, c, t, 1⟩ ∧
      (insertNullifier db i a h c t).1 = db ++ [row] := by
  by_cases hany : (db.any fun r => r.nullifier_hash == h) = true
  · simp [insertNullifier, hany] at hsome
  · simp [insertNullifier, hany] at hsome ⊢
    exact ⟨hsome.symm, hsome⟩

theorem updateNullifier_preserves_usesInv (cfg : String → Nat)
    (actionOf : String → String) (db : List DBRow) (h : String) (u : Nat)
    (hdb : UsesInv cfg actionOf db) (hbound : u + 1 ≤ cfg (actionOf h)) :
    UsesInv cfg actionOf (updateNullifier db h u).1 := by
  intro r hr
  simp only [updateNullifier] at hr
  rw [List.mem_map] at hr
  obtain ⟨r0, hr0, hfr⟩ := hr
  obtain ⟨ha0, hu0⟩ := hdb r0 hr0
  by_cases hc : r0.nullifier_hash = h ∧ r0.uses = u
  · rw [← hfr, if_pos hc]
    refine ⟨by simpa using ha0, ?_⟩
    show r0.uses + 1 ≤ cfg r0.action_id
    rw [hc.2, ha0, hc.1]
    exact hbound
  · rw [← hfr, if_neg hc]
    exact ⟨ha0, hu0⟩

theorem append_preserves_usesInv (cfg : String → Nat)
    (actionOf : String → String) (db : List DBRow) (row : DBRow)
    (hdb : UsesInv cfg actionOf db)
    (hra : row.action_id = actionOf row.nullifier_hash)
    (hru : row.uses ≤ cfg row.action_id) :
    UsesInv cfg actionOf (db ++ [row]) := by
  intro r hr
  rcases List.mem_append.mp hr with h1 | h2
  · exact hdb r h1
  · have hr2 : r = row := by simpa using h2
    subst hr2
    exact ⟨hra, hru⟩

theorem runVerify_preserves_usesInv (cfg : String → Nat)
    (actionOf : String → String) (s : VerifyStep) (db : List DBRow)
    (hdb : UsesInv cfg actionOf db) (hs : StepConsistent cfg actionOf s) :
    UsesInv cfg actionOf (runVerify db s) := by
  unfold runVerify handleVerify
  split
  · exact hdb
  split
  · exact hdb
  rename_i p hp
  split
  · exact hdb
  split
  · exact hdb
  · exact hdb
  rename_i app hfa hfe
  split
  · exact hdb
  split
  · exact hdb
  rename_i hcv
  split
  · exact hdb
  split
  · exact hdb
  obtain ⟨hmax, hpos, hnull, hreq⟩ := hs app hfa
  split
  · rename_i n hn
    have hlt : n.uses < app.action.max_verifications := by
      rw [not_not] at hcv
      simpa [canVerifyForAction, hn] using hcv
    have hbound : n.uses + 1 ≤ cfg (actionOf n.nullifier_hash) := by
      rw [hnull n hn, ← hmax]
      omega
    dsimp only
    split
    · exact updateNullifier_preserves_usesInv cfg actionOf db
        n.nullifier_hash n.uses hdb hbound
    · exact updateNullifier_preserves_usesInv cfg actionOf db
        n.nullifier_hash n.uses hdb hbound
  · rename_i hn
    dsimp only
    split
    · rename_i heq
      rw [insertNullifier_none_fst _ _ _ _ _ _ heq]
      exact hdb
    · rename_i row heq
      obtain ⟨hrow, hfst⟩ := insertNullifier_some _ _ _ _ _ _ _ heq
      have hinv : UsesInv cfg actionOf
          ((insertNullifier db s.newId app.action.id p.nullifier_hash
            p.credential_type s.createdAt).1) := by
        rw [hfst]
        subst hrow
        refine append_preserves_usesInv cfg actionOf db _ hdb ?_ ?_
        · show app.action.id = actionOf p.nullifier_hash
          exact (hreq p hp).symm
        · show 1 ≤ cfg app.action.id
          omega
      split
      · exact hinv
      · exact hinv

theorem runVerifies_preserves_usesInv (cfg : String → Nat)
    (actionOf : String → String) :
    ∀ (steps : List VerifyStep) (db : List DBRow),
      UsesInv cfg actionOf db →
      (∀ s ∈ steps, StepConsistent cfg actionOf s) →
      UsesInv cfg actionOf (runVerifies steps db) := by
  intro steps
  induction steps with
  | nil =>
    intro db hdb hsteps
    simpa [runVerifies] using hdb
  | cons s rest ih =>
    intro db hdb hsteps
    have h1 : runVerifies (s :: rest) db = runVerifies rest (runVerify db s) := by
      simp [runVerifies]
    rw [h1]
    refine ih (runVerify db s) ?_ ?_
    · exact runVerify_preserves_usesInv cfg actionOf s db hdb
        (hsteps s (List.mem_cons_self _ _))
    · intro t ht
      exact hsteps t (List.mem_cons_of_mem s ht)

/-- Claim C1: for every action with a configured limit `max_verifications`,
the stored `uses` count of a nullifier for that action never exceeds the
limit.  `cfg` is the configured limit of each action, `actionOf` names the
action each nullifier hash belongs to; provided the table starts within
bounds and every step's fetched data is consistent with that configuration
(`StepConsistent`, in particular the configured limit is positive and
`canVerifyForAction` is consulted on the fetched state), after any sequence
of `handleVerify` calls every stored row's `uses` is at most its action's
configured limit. -/
theorem uses_count_never_exceeds_limit (cfg : String → Nat)
    (actionOf : String → String) (steps : List VerifyStep) (db : List DBRow)
    (hdb : UsesInv cfg actionOf db)
    (hsteps : ∀ s ∈ steps, StepConsistent cfg actionOf s) :
    UsesBound cfg (runVerifies steps db) := by
  intro r hr
  exact (runVerifies_preserves_usesInv cfg actionOf steps db hdb hsteps r hr).2

/-- Witness for C1 at a concrete first-time verification step. -/
theorem uses_count_never_exceeds_limit_witness :
    UsesBound (fun _ => 2) (runVerifies [exStep] []) := by
  refine uses_count_never_exceeds_limit (fun _ => 2) (fun _ => "act_1")
    [exStep] [] ?_ ?_
  · intro r hr
    exact absurd hr (List.not_mem_nil r)
  · intro s hsmem
    rw [List.mem_singleton] at hsmem
    subst hsmem
    intro a ha
    have ha2 : a = ⟨false, exAction, none⟩ := by
      simpa [exStep, exFetchNew] using ha.symm
    subst ha2
    refine ⟨rfl, by norm_num, ?_, ?_⟩
    · intro n hn
      simp at hn
    · intro p hp
      rfl

/-- Claim C2: in any interleaved schedule of the conditional-update and
insert mutations on one nullifier hash — each update carrying the `uses`
value its request observed (`Guarded`: the handler only issues an update
after `canVerifyForAction` accepted the observed value) — (i) the number of
successful operations on the hash plus the initial stored count never
exceeds the limit, (ii) after a successful update that observed `u`, any
later update that observed the same `u` fails, and (iii) an insert for an
already stored hash is rejected with no state change (the uniqueness
constraint the handler maps to `already_verified`). -/
theorem concurrent_verifications_bounded (max : Nat) (h : String)
    (db : List DBRow) (hmax : 0 < max) (huniq : HashUnique db)
    (hb : usesVal db h ≤ max) :
    (∀ ops, Guarded max h ops →
      (runCount h ops db).2 + usesVal db h ≤ max) ∧
    (∀ pre mid u, (applyOp (runOps pre db) (.update h u)).2 = true →
      (applyOp (runOps mid (applyOp (runOps pre db) (.update h u)).1)
          (.update h u)).2 = false) ∧
    (∀ i a c t, rowUses db h ≠ none →
      applyOp db (.insert i a h c t) = (db, false)) := by
  refine ⟨?_, ?_, ?_⟩
  · intro ops hg
    obtain ⟨_, hacc, hbd⟩ := runCount_invariant max h ops db hg hmax huniq hb
    omega
  · intro pre mid u hs
    exact update_same_observed_second_fails (runOps pre db) h u mid
      (hashUnique_runOps pre db huniq) hs
  · intro i a c t hne
    rcases ho : db.find? (fun r => r.nullifier_hash == h) with _ | r
    · exact absurd (by rw [rowUses, ho]; rfl) hne
    · have hany : (db.any fun r => r.nullifier_hash == h) = true := by
        rw [List.any_eq_true]
        have hp := List.find?_some ho
        exact ⟨r, List.mem_of_find?_eq_some ho, by simpa using hp⟩
      have happly : applyOp db (.insert i a h c t) =
          ((insertNullifier db i a h c t).1,
           (insertNullifier db i a h c t).2.isSome) := rfl
      rw [happly]
      simp [insertNullifier, hany]

/-- Witness for C2 on a concrete racing schedule (one insert, two updates
that observed the same count). -/
theorem concurrent_verifications_bounded_witness :
    (runCount "0xabc" exOps []).2 + usesVal [] "0xabc" ≤ 2 :=
  (concurrent_verifications_bounded 2 "0xabc" [] (by decide)
    (by simp [HashUnique]) (by decide)).1 exOps (by
      intro u hu
      simp [exOps] at hu
      omega)

/-- Claim C3: the double-verification guard is the conditional update — the
mutation increments `uses` by exactly 1 on precisely the rows whose
`nullifier_hash` equals the request's hash and whose `uses` equals the value
read earlier in the same request; its `affected_rows` counts exactly those
rows; when no row matches, the table is unchanged and the handler returns
the `already_verified` validation error. -/
theorem conditional_update_guard (credTypes : List String)
    (req : VerifyRequest) (fetch : FetchResult) (verify : VerifyResult)
    (newId createdAt : String) (db : List DBRow) (a : AppInfo)
    (n : NullifierInfo) (p : ParsedParams)
    (hm : req.method = some "POST")
    (hv : validateRequestSchema credTypes req = some p)
    (hq : falsyStr req.app_id = false)
    (happ : fetch.app = some a)
    (hferr : fetch.error = none)
    (hact : ¬ (a.action.status = "inactive"))
    (hcv : canVerifyForAction a.nullifier a.action.max_verifications = true)
    (hext : falsyStr a.action.external_nullifier = false)
    (hverr : verify.error = none) (hvs : verify.success = true)
    (hn : a.nullifier = some n)
    (hcons : n.nullifier_hash = p.nullifier_hash) :
    List.Forall₂
      (fun r r2 => r2 = if r.nullifier_hash = p.nullifier_hash ∧
          r.uses = n.uses then { r with uses := r.uses + 1 } else r)
      db (updateNullifier db n.nullifier_hash n.uses).1 ∧
    (updateNullifier db n.nullifier_hash n.uses).2 =
      db.countP (fun r => decide (r.nullifier_hash = p.nullifier_hash ∧
        r.uses = n.uses)) ∧
    ((updateNullifier db n.nullifier_hash n.uses).2 = 0 →
      (updateNullifier db n.nullifier_hash n.uses).1 = db) ∧
    ((updateNullifier db n.nullifier_hash n.uses).2 = 0 →
      handleVerify credTypes req fetch verify newId createdAt db =
        (.validationErr "already_verified"
          "This person has already verified for this action.", db)) := by
  have hid : ∀ (h0 : (updateNullifier db n.nullifier_hash n.uses).2 = 0),
      (updateNullifier db n.nullifier_hash n.uses).1 = db := by
    intro h0
    have hall := List.countP_eq_zero.mp h0
    show db.map _ = db
    conv_rhs => rw [← List.map_id db]
    apply List.map_congr_left
    intro r hr
    have hc : ¬ (r.nullifier_hash = n.nullifier_hash ∧ r.uses = n.uses) := by
      simpa using hall r hr
    simp [hc]
  refine ⟨?_, ?_, hid, ?_⟩
  · rw [← hcons]
    rw [show (updateNullifier db n.nullifier_hash n.uses).1 = db.map _ from
      rfl]
    rw [List.forall₂_map_right_iff, List.forall₂_same]
    intro r hr
    rfl
  · rw [← hcons]
    apply List.countP_congr
    intro r hr
    by_cases h1 : r.nullifier_hash = n.nullifier_hash <;>
      by_cases h2 : r.uses = n.uses <;> simp [h1, h2]
  · intro h0
    have hcv2 : canVerifyForAction (some n) a.action.max_verifications =
        true := hn ▸ hcv
    unfold handleVerify
    simp only [hm, hv, hq, happ, hferr, hact, hcv, hext, hverr, hvs, hn]
    simp [hact, hcv2, hext, h0, hid h0]

/-- Witness for C3: a stale read (the row moved from 1 use to 2 uses after
the fetch) makes the conditional update match nothing, so the handler
returns `already_verified` and the table is unchanged. -/
theorem conditional_update_guard_witness :
    handleVerify ["orb"] exReq exFetchUsed ⟨none, true⟩ "nil_2" "t2" [exRow2] =
      (.validationErr "already_verified"
        "This person has already verified for this action.", [exRow2]) :=
  (conditional_update_guard ["orb"] exReq exFetchUsed ⟨none, true⟩ "nil_2"
    "t2" [exRow2] ⟨false, exAction, some ⟨"0xabc", 1, "t0"⟩⟩ ⟨"0xabc", 1, "t0"⟩
    ⟨"sign-in", "", "pf", "0xabc", "0xroot", "orb"⟩
    rfl (by decide) rfl rfl rfl (by decide) (by decide) (by decide) rfl rfl
    rfl rfl).2.2.2 (by decide)

/-- Counterexample to claim C4 as stated: with a stale read (row at 2 uses,
fetch observed 1) the external verifier reports success with no error, yet
the handler's response is the `already_verified` validation error, not the
success response — so "success response iff verifyProof reported success
with no error" fails in the only-if-to-if direction. -/
theorem success_iff_verifier_counterexample :
    ¬ (((handleVerify ["orb"] exReq exFetchUsed ⟨none, true⟩ "nil_2" "t2"
        [exRow2]).1.isSuccess = true) ↔
      ((⟨none, true⟩ : VerifyResult).error = none ∧
        (⟨none, true⟩ : VerifyResult).success = true)) := by
  decide

/-- Claim C4 (amended): proof verification is delegated — a success response
implies `verifyProof` reported success with no error; and whenever the
handler reaches the `verifyProof` call and it returns an error or
`success: false`, the handler responds with that error (status code, code,
message and attribute defaulting per the source) and performs no insert or
update of any nullifier row.  (The converse of the first implication does
not hold: see the counterexample.) -/
theorem verifier_delegation (credTypes : List String) (req : VerifyRequest)
    (fetch : FetchResult) (verify : VerifyResult) (newId createdAt : String)
    (db : List DBRow) :
    ((handleVerify credTypes req fetch verify newId createdAt db).1.isSuccess =
        true → verify.error = none ∧ verify.success = true) ∧
    (∀ p a, req.method = some "POST" →
      validateRequestSchema credTypes req = some p →
      falsyStr req.app_id = false →
      fetch.app = some a → fetch.error = none →
      ¬ (a.action.status = "inactive") →
      canVerifyForAction a.nullifier a.action.max_verifications = true →
      falsyStr a.action.external_nullifier = false →
      (verify.error.isSome = true ∨ verify.success = false) →
      handleVerify credTypes req fetch verify newId createdAt db =
        (.errorResp (orDefaultNat (verify.error.bind (·.statusCode)) 400)
          (orDefaultStr (verify.error.bind (·.code)) "unknown_error")
          (orDefaultStr (verify.error.bind (·.message))
            "There was an error verifying this proof.")
          (orNull (verify.error.bind (·.attr))), db)) := by
  constructor
  · intro hsucc
    unfold handleVerify at hsucc
    split at hsucc
    · simp [VerifyResponse.isSuccess] at hsucc
    split at hsucc
    · simp [VerifyResponse.isSuccess] at hsucc
    split at hsucc
    · simp [VerifyResponse.isSuccess] at hsucc
    split at hsucc
    · simp [VerifyResponse.isSuccess] at hsucc
    · simp [VerifyResponse.isSuccess] at hsucc
    split at hsucc
    · simp [VerifyResponse.isSuccess] at hsucc
    split at hsucc
    · simp [VerifyResponse.isSuccess] at hsucc
    split at hsucc
    · simp [VerifyResponse.isSuccess] at hsucc
    split at hsucc
    · simp [VerifyResponse.isSuccess] at hsucc
    rename_i hverify
    push_neg at hverify
    refine ⟨Option.not_isSome_iff_eq_none.mp (by simpa using hverify.1), ?_⟩
    have h2 := hverify.2
    rwa [Bool.ne_false_iff] at h2
  · intro p a hm hv hq happ hferr hact hcv hext hbad
    unfold handleVerify
    simp only [hm, hv, hq, happ, hferr]
    simp [hact, hcv, hext, hbad]

/-- Witness for C4 (amended) at a concrete failing verifier result. -/
theorem verifier_delegation_witness :
    handleVerify ["orb"] exReq exFetchNew exVerifyErr "nil_1" "t1" [] =
      (.errorResp (orDefaultNat (exVerifyErr.error.bind (·.statusCode)) 400)
        (orDefaultStr (exVerifyErr.error.bind (·.code)) "unknown_error")
        (orDefaultStr (exVerifyErr.error.bind (·.message))
          "There was an error verifying this proof.")
        (orNull (exVerifyErr.error.bind (·.attr))), []) :=
  (verifier_delegation ["orb"] exReq exFetchNew exVerifyErr "nil_1" "t1"
    []).2 ⟨"sign-in", "", "pf", "0xabc", "0xroot", "orb"⟩
    ⟨false, exAction, none⟩ rfl (by decide) rfl rfl rfl (by decide) rfl
    (by decide) (by decide)

/-- Helper for C5: the schema rejects a body missing a required attribute or
carrying a credential type outside the allowed values. -/
theorem validateRequestSchema_none (credTypes : List String)
    (req : VerifyRequest)
    (hmiss : req.action = none ∨ req.proof = none ∨
      req.nullifier_hash = none ∨ req.merkle_root = none ∨
      req.credential_type = none ∨
      (∀ ct, req.credential_type = some ct → ct ∉ credTypes)) :
    validateRequestSchema credTypes req = none := by
  unfold validateRequestSchema
  rcases hA : req.action with _ | av <;>
    rcases hP : req.proof with _ | pv <;>
      rcases hN : req.nullifier_hash with _ | nv <;>
        rcases hM : req.merkle_root with _ | mv <;>
          rcases hC : req.credential_type with _ | cv <;>
            simp_all

/-- Claim C5: the endpoint validates every request before mutating anything —
a body missing `action`, `proof`, `nullifier_hash` or `merkle_root`, or with
a `credential_type` outside the allowed values, gets the schema validation
error; a valid body without an `app_id` query parameter gets the
required-attribute error for `app_id`; in both cases the table is returned
untouched, for every oracle result. -/
theorem request_validation_first (credTypes : List String)
    (req : VerifyRequest) (fetch : FetchResult) (verify : VerifyResult)
    (newId createdAt : String) (db : List DBRow)
    (hm : req.method = some "POST") :
    ((req.action = none ∨ req.proof = none ∨ req.nullifier_hash = none ∨
        req.merkle_root = none ∨ req.credential_type = none ∨
        (∀ ct, req.credential_type = some ct → ct ∉ credTypes)) →
      handleVerify credTypes req fetch verify newId createdAt db =
        (.schemaError, db)) ∧
    ((validateRequestSchema credTypes req).isSome = true →
      req.app_id = none →
      handleVerify credTypes req fetch verify newId createdAt db =
        (.requiredAttribute "app_id", db)) := by
  constructor
  · intro hmiss
    have hval := validateRequestSchema_none credTypes req hmiss
    unfold handleVerify
    simp [hm, hval]
  · intro hvs hqnone
    obtain ⟨p, hp⟩ := Option.isSome_iff_exists.mp hvs
    unfold handleVerify
    simp [hm, hp, hqnone, falsyStr]

/-- Witness for C5 at a request missing its proof. -/
theorem request_validation_first_witness :
    handleVerify ["orb"] { exReq with proof := none } ⟨none, none⟩
        ⟨none, true⟩ "i" "t" [] = (.schemaError, []) :=
  (request_validation_first ["orb"] { exReq with proof := none } ⟨none, none⟩
    ⟨none, true⟩ "i" "t" [] rfl).1 (Or.inr (Or.inl rfl))

/-- Claim C6: when the fetched nullifier has already reached the configured
limit (`canVerifyForAction` returns false), the handler returns the
`already_verified` validation error — for every verifier oracle result, i.e.
before the external verifier is consulted — with the table untouched, and
the message is the singular one exactly when `max_verifications` is 1 and
the maximum-number-of-times one otherwise. -/
theorem already_verified_guard (credTypes : List String) (req : VerifyRequest)
    (fetch : FetchResult) (verify : VerifyResult) (newId createdAt : String)
    (db : List DBRow) (a : AppInfo) (p : ParsedParams)
    (hm : req.method = some "POST")
    (hv : validateRequestSchema credTypes req = some p)
    (hq : falsyStr req.app_id = false)
    (happ : fetch.app = some a)
    (hferr : fetch.error = none)
    (hact : ¬ (a.action.status = "inactive"))
    (hcv : canVerifyForAction a.nullifier a.action.max_verifications =
      false) :
    handleVerify credTypes req fetch verify newId createdAt db =
      (.validationErr "already_verified"
        (if a.action.max_verifications = 1 then
           "This person has already verified for this action."
         else
           "This person has already verified for this action the maximum number of times ("
             ++ toString a.action.max_verifications ++ ")."), db) := by
  unfold handleVerify
  simp only [hm, hv, hq, happ, hferr, ne_eq, hact, hcv]
  simp [hact, hcv]

/-- Witness for C6 at a nullifier that reached its limit of 2. -/
theorem already_verified_guard_witness :
    handleVerify ["orb"] exReq
        ⟨none, some ⟨false, exAction, some ⟨"0xabc", 2, "t0"⟩⟩⟩
        ⟨none, true⟩ "x" "t" [exRow2] =
      (.validationErr "already_verified"
        (if exAction.max_verifications = 1 then
           "This person has already verified for this action."
         else
           "This person has already verified for this action the maximum number of times ("
             ++ toString exAction.max_verifications ++ ")."), [exRow2]) :=
  already_verified_guard ["orb"] exReq
    ⟨none, some ⟨false, exAction, some ⟨"0xabc", 2, "t0"⟩⟩⟩ ⟨none, true⟩
    "x" "t" [exRow2] ⟨false, exAction, some ⟨"0xabc", 2, "t0"⟩⟩
    ⟨"sign-in", "", "pf", "0xabc", "0xroot", "orb"⟩
    rfl (by decide) rfl rfl rfl (by decide) (by decide)

/-- Claim C7: every success response reports the post-increment state — given
that the fetched nullifier (when present) is the one for the request's hash,
a success response carries `uses` equal to the previously read count plus 1
for an existing nullifier and 1 for a fresh insert, `max_uses` equal to the
action's `max_verifications`, and `nullifier_hash` equal to the request's
nullifier hash (`success: true` is the constructor itself). -/
theorem success_reports_state (credTypes : List String) (req : VerifyRequest)
    (fetch : FetchResult) (verify : VerifyResult) (newId createdAt : String)
    (db : List DBRow) (p : ParsedParams)
    (hv : validateRequestSchema credTypes req = some p)
    (hcons : ∀ a n, fetch.app = some a → a.nullifier = some n →
      n.nullifier_hash = p.nullifier_hash) :
    ∀ u act c mu nh,
      (handleVerify credTypes req fetch verify newId createdAt db).1 =
        .success u act c mu nh →
      ∃ a, fetch.app = some a ∧ mu = a.action.max_verifications ∧
        nh = p.nullifier_hash ∧
        ((∃ n, a.nullifier = some n ∧ u = n.uses + 1) ∨
          (a.nullifier = none ∧ u = 1)) := by
  intro u act c mu nh hres
  unfold handleVerify at hres
  split at hres
  · simp at hres
  split at hres
  · simp at hres
  rename_i p2 hp2
  rw [hv] at hp2
  injection hp2 with hpp
  subst hpp
  split at hres
  · simp at hres
  split at hres
  · simp at hres
  · simp at hres
  rename_i a hfa hfe
  split at hres
  · simp at hres
  split at hres
  · simp at hres
  split at hres
  · simp at hres
  split at hres
  · simp at hres
  split at hres
  · rename_i n hn
    dsimp only at hres
    split at hres
    · simp at hres
    · simp only [VerifyResponse.success.injEq] at hres
      obtain ⟨h1, h2, h3, h4, h5⟩ := hres
      exact ⟨a, hfa, h4.symm, by rw [← h5, hcons a n hfa hn],
        Or.inl ⟨n, hn, h1.symm⟩⟩
  · rename_i hn
    dsimp only at hres
    split at hres
    · simp at hres
    · rename_i row heq
      split at hres
      · simp at hres
      · rename_i hrn
        rw [not_not] at hrn
        simp only [VerifyResponse.success.injEq] at hres
        obtain ⟨h1, h2, h3, h4, h5⟩ := hres
        exact ⟨a, hfa, h4.symm, by rw [← h5, hrn], Or.inr ⟨hn, h1.symm⟩⟩

/-- Witness for C7 at a concrete second verification (1 use observed, so the
success response reports 2). -/
theorem success_reports_state_witness :
    ∃ a, exFetchUsed.app = some a ∧ 2 = a.action.max_verifications ∧
      "0xabc" = (⟨"sign-in", "", "pf", "0xabc", "0xroot",
        "orb"⟩ : ParsedParams).nullifier_hash ∧
      ((∃ n, a.nullifier = some n ∧ 2 = n.uses + 1) ∨
        (a.nullifier = none ∧ 2 = 1)) :=
  success_reports_state ["orb"] exReq exFetchUsed ⟨none, true⟩ "nil_2" "t2"
    [exRow] ⟨"sign-in", "", "pf", "0xabc", "0xroot", "orb"⟩ (by decide)
    (by
      intro a n ha hn
      rw [show exFetchUsed.app =
        some ⟨false, exAction, some ⟨"0xabc", 1, "t0"⟩⟩ from rfl] at ha
      injection ha with ha2
      subst ha2
      cases hn
      rfl)
    2 (some "sign-in") "t0" 2 "0xabc" (by decide)

/-- Claim C8: a request whose method is not POST (including an absent
method) is rejected with the method-not-allowed error immediately, for
every oracle result and with the table untouched. -/
theorem non_post_rejected (credTypes : List String) (req : VerifyRequest)
    (fetch : FetchResult) (verify : VerifyResult) (newId createdAt : String)
    (db : List DBRow) (h : req.method ≠ some "POST") :
    handleVerify credTypes req fetch verify newId createdAt db =
      (.notAllowed req.method, db) := by
  unfold handleVerify
  rw [if_pos h]

/-- Witness for C8 at a request with no method at all. -/
theorem non_post_rejected_witness :
    handleVerify [] ⟨none, none, none, none, none, none, none, none⟩
        ⟨none, none⟩ ⟨none, true⟩ "i" "t" [] = (.notAllowed none, []) :=
  non_post_rejected [] _ _ _ _ _ [] (by simp)

/-- Claim C9: the `service` role's declarative update permission for the
nullifier table covers only the `uses` column, so any update applied through
it leaves `id`, `action_id`, `nullifier_hash`, `credential_type` and
`created_at` of every row unchanged — a nullifier's identity is immutable
after insert. -/
theorem service_update_only_uses (u : ColumnAssignment) (r : DBRow) :
    (applyPermittedUpdate nullifierUpdateColumns u r).id = r.id ∧
    (applyPermittedUpdate nullifierUpdateColumns u r).action_id =
      r.action_id ∧
    (applyPermittedUpdate nullifierUpdateColumns u r).nullifier_hash =
      r.nullifier_hash ∧
    (applyPermittedUpdate nullifierUpdateColumns u r).credential_type =
      r.credential_type ∧
    (applyPermittedUpdate nullifierUpdateColumns u r).created_at =
      r.created_at := by
  simp [applyPermittedUpdate, nullifierUpdateColumns]
